import Mathlib

/-!
Verification of the parallel color-substitution engine of ColorEdit.py.

An image is modelled column-major: `Image := List (List Pixel)`, the outer
list indexed by the x coordinate (one entry per column), the inner list by
the y coordinate.  This matches the program, whose regions are vertical
strips of full height: `crop (x0, 0, x1, H)` keeps the columns `[x0, x1)`
and `paste` at `(x0, 0, x1, H)` writes them back.

Pixels are 3- or 4-channel integer tuples (`a` is `none` for RGB images);
channel values are unbounded integers, since the transform in the source
performs unclamped integer arithmetic.  Colors are always RGBA 4-tuples.
-/

structure Pixel where
  r : Int
  g : Int
  b : Int
  a : Option Int
  deriving DecidableEq

structure Color where
  r : Int
  g : Int
  b : Int
  a : Int
  deriving DecidableEq

abbrev Image := List (List Pixel)

/-- From `check_pixel` (ColorEdit.py lines 123-127): membership of each of
the R, G, B channels in the Python `range(color[c] - tolerance, color[c] + tolerance)`,
which holds exactly when `color[c] - tolerance ≤ pixel[c] < color[c] + tolerance`. -/
def check_pixel (pixel : Pixel) (color : Color) (tolerance : Int) : Bool :=
  decide (color.r - tolerance ≤ pixel.r ∧ pixel.r < color.r + tolerance) &&
  decide (color.g - tolerance ≤ pixel.g ∧ pixel.g < color.g + tolerance) &&
  decide (color.b - tolerance ≤ pixel.b ∧ pixel.b < color.b + tolerance)

/-- From `change_pixel` (ColorEdit.py lines 130-137): offset each RGB channel
by `color2[c] - color1[c]`; a 4-channel pixel keeps its alpha (TRANSPARENCY
MODE), a 3-channel pixel stays 3-channel (IndexError branch). -/
def change_pixel (pixel : Pixel) (color1 color2 : Color) : Pixel :=
  match pixel.a with
  | some alpha =>
    ⟨color2.r + pixel.r - color1.r, color2.g + pixel.g - color1.g,
     color2.b + pixel.b - color1.b, some alpha⟩
  | none =>
    ⟨color2.r + pixel.r - color1.r, color2.g + pixel.g - color1.g,
     color2.b + pixel.b - color1.b, none⟩

/-- From `change_color` (ColorEdit.py lines 174-182): over every pixel of the
(cropped) image, replace the pixel by `change_pixel` when `check_pixel`
accepts it, else leave it untouched. -/
def change_color (img : Image) (color1 color2 : Color) (tolerance : Int) : Image :=
  img.map (fun col => col.map (fun pixel =>
    if check_pixel pixel color1 tolerance then change_pixel pixel color1 color2 else pixel))

/-- The region boundary `i * W // K` used at ColorEdit.py lines 151 and 168. -/
def region_bound (W K i : Nat) : Nat := i * W / K

/-- `img.crop((lo, 0, hi, H))` on the column-major model: columns `[lo, hi)`. -/
def crop (img : Image) (lo hi : Nat) : Image := (img.take hi).drop lo

/-- `base.paste(strip, (lo, 0, lo + strip.width, H))`: overwrite the columns
starting at `lo` with `strip`. -/
def paste (base : Image) (strip : Image) (lo : Nat) : Image :=
  base.take lo ++ strip ++ base.drop (lo + strip.length)

/-- The buffer produced by worker `i`: `change_color` applied to the crop of
region `i` (ColorEdit.py line 151). -/
def region_result (img : Image) (color1 color2 : Color) (tolerance : Int) (K i : Nat) : Image :=
  change_color (crop img (region_bound img.length K i) (region_bound img.length K (i + 1)))
    color1 color2 tolerance

/-- From `change_img` (ColorEdit.py lines 140-171) with results collected in
index order: paste each worker's result back at its region bounds. -/
def change_img (img : Image) (color1 color2 : Color) (tolerance : Int) (core_count : Nat) :
    Image :=
  (List.range core_count).foldl (fun acc i =>
    paste acc (region_result img color1 color2 tolerance core_count i)
      (region_bound img.length core_count i)) img

/-- The `crop_dict` of ColorEdit.py lines 162-165: the queue delivers the
containers `[counter, edited area]` in the order given by `arrivals`, and the
dictionary maps each region index to its edited area. -/
def crop_dict (img : Image) (color1 color2 : Color) (tolerance : Int) (K : Nat)
    (arrivals : List Nat) : Nat → Option Image :=
  fun j =>
    ((arrivals.map (fun i => (i, region_result img color1 color2 tolerance K i))).find?
      (fun c => c.1 == j)).map (fun c => c.2)

/-- `change_img` with the queue arrival order made explicit: the paste loop of
ColorEdit.py lines 167-168 reads `crop_dict[i]` for `i` in index order. -/
def change_img_arrivals (img : Image) (color1 color2 : Color) (tolerance : Int) (K : Nat)
    (arrivals : List Nat) : Image :=
  (List.range K).foldl (fun acc i =>
    paste acc ((crop_dict img color1 color2 tolerance K arrivals i).getD [])
      (region_bound img.length K i)) img

/-- The validation performed by `parse_parameters` (ColorEdit.py lines 44-88)
once the console strings have been parsed to integers: the core count must
satisfy `core_count >= 1` (lines 47-49) and the tolerance only `tolerance > 255`
is rejected (lines 58-61); on success both values are returned unchanged. -/
def parse_parameters (core_count tolerance : Int) : Except Unit (Int × Int) :=
  if 1 ≤ core_count then
    if tolerance > 255 then Except.error () else Except.ok (core_count, tolerance)
  else Except.error ()

/-- The single-image main flow (ColorEdit.py lines 187-198) without file
system concerns: parameters are validated first; only on success is
`change_img` run and an output image produced. -/
def run_single (img : Image) (color1 color2 : Color) (core_count tolerance : Int) :
    Except Unit Image :=
  match parse_parameters core_count tolerance with
  | Except.error e => Except.error e
  | Except.ok p => Except.ok (change_img img color1 color2 p.2 p.1.toNat)

/-- The 4x1 image of the end-to-end scenario. -/
def testImg : Image :=
  [[⟨100, 100, 100, some 255⟩], [⟨10, 10, 10, some 255⟩],
   [⟨100, 100, 100, some 255⟩], [⟨0, 0, 0, some 255⟩]]

/-- The scenario's `from` color (100,100,100,255). -/
def fromColor : Color := ⟨100, 100, 100, 255⟩

/-- The scenario's `to` color (200,50,0,255). -/
def toColor : Color := ⟨200, 50, 0, 255⟩

/-- The output the spec's end-to-end scenario expects. -/
def claimedOutput : Image :=
  [[⟨200, 50, 0, some 255⟩], [⟨10, 10, 10, some 255⟩],
   [⟨200, 50, 0, some 255⟩], [⟨0, 0, 0, some 255⟩]]

lemma region_bound_mono (W K : Nat) {i j : Nat} (h : i ≤ j) :
    region_bound W K i ≤ region_bound W K j :=
  Nat.div_le_div_right (Nat.mul_le_mul_right W h)

lemma region_bound_last (W K : Nat) (hK : 1 ≤ K) : region_bound W K K = W := by
  unfold region_bound
  exact Nat.mul_div_cancel_left W hK

lemma region_bound_le (W K : Nat) (hK : 1 ≤ K) {j : Nat} (h : j ≤ K) :
    region_bound W K j ≤ W :=
  (region_bound_mono W K h).trans (le_of_eq (region_bound_last W K hK))

lemma paste_step (l : Image) (F : List Pixel → List Pixel) {m n : Nat}
    (hmn : m ≤ n) (hn : n ≤ l.length) :
    paste ((l.take m).map F ++ l.drop m) ((crop l m n).map F) m
      = (l.take n).map F ++ l.drop n := by
  have hm : m ≤ l.length := hmn.trans hn
  have hPlen : ((l.take m).map F).length = m := by
    simp only [List.length_map, List.length_take]
    omega
  have hslen : ((crop l m n).map F).length = n - m := by
    simp only [crop, List.length_map, List.length_drop, List.length_take]
    omega
  have hdrop : ((l.take m).map F ++ l.drop m).drop (m + ((crop l m n).map F).length)
      = l.drop n := by
    rw [hslen]
    have he : m + (n - m) = ((l.take m).map F).length + (n - m) := by omega
    rw [he, List.drop_append, List.drop_drop]
    congr 1
    omega
  have htakeP : ((l.take m).map F ++ l.drop m).take m = (l.take m).map F :=
    List.take_left' hPlen
  have hjoin : (l.take m).map F ++ (crop l m n).map F = (l.take n).map F := by
    rw [← List.map_append]
    congr 1
    unfold crop
    have ht : l.take m = (l.take n).take m := by
      rw [List.take_take]
      congr 1
      omega
    rw [ht]
    exact List.take_append_drop m (l.take n)
  unfold paste
  rw [htakeP, hdrop, hjoin]

lemma paste_fold_inv (img : Image) (F : List Pixel → List Pixel) (K : Nat) (hK : 1 ≤ K)
    (s : Nat → Image)
    (hs : ∀ i, i < K →
      s i = (crop img (region_bound img.length K i) (region_bound img.length K (i + 1))).map F) :
    ∀ j, j ≤ K →
      (List.range j).foldl (fun acc i => paste acc (s i) (region_bound img.length K i)) img
        = (img.take (region_bound img.length K j)).map F
          ++ img.drop (region_bound img.length K j) := by
  intro j
  induction j with
  | zero =>
    intro _
    simp [region_bound]
  | succ n ih =>
    intro hj
    have hn : n ≤ K := Nat.le_of_succ_le hj
    rw [List.range_succ, List.foldl_append, ih hn]
    simp only [List.foldl_cons, List.foldl_nil]
    rw [hs n hj]
    exact paste_step img F (region_bound_mono _ _ (Nat.le_succ n))
      (region_bound_le _ _ hK hj)

lemma paste_fold_eq (img : Image) (F : List Pixel → List Pixel) (K : Nat) (hK : 1 ≤ K)
    (s : Nat → Image)
    (hs : ∀ i, i < K →
      s i = (crop img (region_bound img.length K i) (region_bound img.length K (i + 1))).map F) :
    (List.range K).foldl (fun acc i => paste acc (s i) (region_bound img.length K i)) img
      = img.map F := by
  have h := paste_fold_inv img F K hK s hs K (le_refl K)
  rw [region_bound_last _ _ hK] at h
  simpa using h

lemma change_img_eq_change_color (img : Image) (color1 color2 : Color) (tolerance : Int)
    (K : Nat) (hK : 1 ≤ K) :
    change_img img color1 color2 tolerance K = change_color img color1 color2 tolerance := by
  unfold change_img change_color
  exact paste_fold_eq img _ K hK (fun i => region_result img color1 color2 tolerance K i)
    (fun i _ => rfl)

/-- C2: the matcher accepts exactly when every RGB channel lies in the
half-open interval `[target - tolerance, target + tolerance)`, unclamped,
and neither alpha channel is ever compared. -/
theorem check_pixel_iff_interval (pr pg pb : Int) (pa : Option Int) (cr cg cb ca t : Int)
    (_ht : 0 ≤ t) :
    (check_pixel ⟨pr, pg, pb, pa⟩ ⟨cr, cg, cb, ca⟩ t = true ↔
      (cr - t ≤ pr ∧ pr < cr + t) ∧ (cg - t ≤ pg ∧ pg < cg + t) ∧
        (cb - t ≤ pb ∧ pb < cb + t)) ∧
    (∀ pa2 : Option Int, ∀ ca2 : Int,
      check_pixel ⟨pr, pg, pb, pa2⟩ ⟨cr, cg, cb, ca2⟩ t
        = check_pixel ⟨pr, pg, pb, pa⟩ ⟨cr, cg, cb, ca⟩ t) := by
  constructor
  · simp [check_pixel, and_assoc]
  · intro pa2 ca2
    rfl

/-- C2 witness: the matcher theorem applied at pixel (5,5,5), target (5,5,5,0),
tolerance 1. -/
theorem check_pixel_iff_interval_witness :
    (0 : Int) ≤ 1 ∧
    ((check_pixel ⟨5, 5, 5, none⟩ ⟨5, 5, 5, 0⟩ 1 = true ↔
      ((5 : Int) - 1 ≤ 5 ∧ (5 : Int) < 5 + 1) ∧ ((5 : Int) - 1 ≤ 5 ∧ (5 : Int) < 5 + 1) ∧
        ((5 : Int) - 1 ≤ 5 ∧ (5 : Int) < 5 + 1)) ∧
     (∀ pa2 : Option Int, ∀ ca2 : Int,
       check_pixel ⟨5, 5, 5, pa2⟩ ⟨5, 5, 5, ca2⟩ 1
         = check_pixel ⟨5, 5, 5, none⟩ ⟨5, 5, 5, 0⟩ 1)) :=
  ⟨by decide, check_pixel_iff_interval 5 5 5 none 5 5 5 0 1 (by decide)⟩

/-- C3: the transformer offsets each RGB channel by `to[c] - from[c]` with no
clamping, keeps a present alpha channel unchanged, and produces no alpha
channel when the input has none. -/
theorem change_pixel_spec (pr pg pb : Int) (pa : Option Int) (c1 c2 : Color) :
    change_pixel ⟨pr, pg, pb, pa⟩ c1 c2
      = ⟨c2.r + pr - c1.r, c2.g + pg - c1.g, c2.b + pb - c1.b, pa⟩ := by
  cases pa <;> rfl

/-- C4: a pixel that the matcher rejects is byte-identical in the output of
the full run: the column and row lookups return the very same pixel, so the
transform is never applied to it. -/
theorem unmatched_pixel_unchanged (img : Image) (color1 color2 : Color) (tolerance : Int)
    (K x y : Nat) (col : List Pixel) (p : Pixel) (hK : 1 ≤ K)
    (hcol : img[x]? = some col) (hp : col[y]? = some p)
    (hno : check_pixel p color1 tolerance = false) :
    ∃ col2, (change_img img color1 color2 tolerance K)[x]? = some col2 ∧
      col2[y]? = some p := by
  rw [change_img_eq_change_color img color1 color2 tolerance K hK]
  unfold change_color
  refine ⟨col.map (fun pixel =>
    if check_pixel pixel color1 tolerance then change_pixel pixel color1 color2 else pixel),
    ?_, ?_⟩
  · rw [List.getElem?_map, hcol]
    rfl
  · rw [List.getElem?_map, hp]
    simp [hno]

/-- C4 witness: in the scenario image with tolerance 20 the pixel (10,10,10,255)
at column 1 does not match and survives the run unchanged. -/
theorem unmatched_pixel_unchanged_witness :
    ∃ col2, (change_img testImg fromColor toColor 20 2)[1]? = some col2 ∧
      col2[0]? = some ⟨10, 10, 10, some 255⟩ :=
  unmatched_pixel_unchanged testImg fromColor toColor 20 2 1 0
    [⟨10, 10, 10, some 255⟩] ⟨10, 10, 10, some 255⟩ (by decide) (by decide) (by decide)
    (by decide)

/-- C5: for any width W, worker count K ≥ 1 and column x < W, exactly one
region index i < K satisfies `i*W/K ≤ x < (i+1)*W/K`: the vertical strips
partition the columns with no overlap and no gap. -/
theorem region_partition (W K x : Nat) (hK : 1 ≤ K) (hx : x < W) :
    ∃! i, i < K ∧ region_bound W K i ≤ x ∧ x < region_bound W K (i + 1) := by
  have hK0 : 0 < K := hK
  have hW : 0 < W := Nat.lt_of_le_of_lt (Nat.zero_le x) hx
  have key : ∀ i : Nat, (region_bound W K i ≤ x ∧ x < region_bound W K (i + 1)) ↔
      (i * W < (x + 1) * K ∧ (x + 1) * K ≤ (i + 1) * W) := by
    intro i
    have h1 : region_bound W K i ≤ x ↔ i * W < (x + 1) * K := by
      unfold region_bound
      constructor
      · intro h
        exact (Nat.div_lt_iff_lt_mul hK0).mp (Nat.lt_succ_of_le h)
      · intro h
        exact Nat.lt_succ_iff.mp ((Nat.div_lt_iff_lt_mul hK0).mpr h)
    have h2 : x < region_bound W K (i + 1) ↔ (x + 1) * K ≤ (i + 1) * W := by
      unfold region_bound
      constructor
      · intro h
        exact (Nat.le_div_iff_mul_le hK0).mp h
      · intro h
        exact (Nat.le_div_iff_mul_le hK0).mpr h
    rw [h1, h2]
  set m := (x + 1) * K with hmdef
  have hm0 : 0 < m := Nat.mul_pos (Nat.succ_pos x) hK0
  have hmW : m ≤ W * K := Nat.mul_le_mul_right K hx
  set i0 := (m - 1) / W with hi0def
  have hA : i0 * W < m :=
    Nat.lt_of_le_of_lt (Nat.div_mul_le_self (m - 1) W) (Nat.sub_lt hm0 Nat.one_pos)
  have hB : m ≤ (i0 + 1) * W := by
    apply Nat.le_of_pred_lt
    show m - 1 < (i0 + 1) * W
    have hd := Nat.div_add_mod (m - 1) W
    have hr : (m - 1) % W < W := Nat.mod_lt _ hW
    calc m - 1 = W * i0 + (m - 1) % W := hd.symm
      _ < W * i0 + W := Nat.add_lt_add_left hr _
      _ = (i0 + 1) * W := by ring
  have hiK : i0 < K := by
    apply (Nat.div_lt_iff_lt_mul hW).mpr
    calc m - 1 < m := Nat.sub_lt hm0 Nat.one_pos
      _ ≤ W * K := hmW
      _ = K * W := Nat.mul_comm W K
  refine ⟨i0, ⟨hiK, (key i0).mpr ⟨hA, hB⟩⟩, ?_⟩
  rintro j ⟨hjK, hj⟩
  obtain ⟨hj1, hj2⟩ := (key j).mp hj
  have l1 : j < i0 + 1 :=
    lt_of_mul_lt_mul_right (Nat.lt_of_lt_of_le hj1 hB) (Nat.zero_le W)
  have l2 : i0 < j + 1 :=
    lt_of_mul_lt_mul_right (Nat.lt_of_lt_of_le hA hj2) (Nat.zero_le W)
  omega

/-- C5 witness: with W = 4, K = 8, column 2 lies in exactly one region. -/
theorem region_partition_witness :
    1 ≤ 8 ∧ 2 < 4 ∧
    ∃! i, i < 8 ∧ region_bound 4 8 i ≤ 2 ∧ 2 < region_bound 4 8 (i + 1) :=
  ⟨by decide, by decide, region_partition 4 8 2 (by decide) (by decide)⟩

/-- C1 counterexample: on the 4x1 scenario image with tolerance 0 the pipeline
does not produce the claimed output; it returns the input unchanged, because
the half-open matching interval `[c, c)` is empty. -/
theorem scenario_tolerance_zero_counterexample :
    change_img testImg fromColor toColor 0 2 ≠ claimedOutput ∧
    change_img testImg fromColor toColor 0 2 = testImg :=
  ⟨by decide, by decide⟩

/-- C1 (amended): the end-to-end scenario holds with tolerance 1 instead of 0 -
the 4x1 image run with from=(100,100,100,255), to=(200,50,0,255), tolerance=1,
workerCount=2 produces exactly the claimed output. -/
theorem scenario_tolerance_one :
    change_img testImg fromColor toColor 1 2 = claimedOutput := by decide

/-- C6 counterexample: tolerance -1 lies outside [0,255], yet the validation
accepts it and the pipeline runs to completion, producing an output image
instead of refusing. -/
theorem negative_tolerance_accepted :
    parse_parameters 2 (-1) = Except.ok (2, -1) ∧
    run_single testImg fromColor toColor 2 (-1) = Except.ok testImg :=
  ⟨rfl, rfl⟩

/-- C6 (amended): only tolerances greater than 255 are refused: for those the
run errors before any pixel processing and no image is produced, while every
tolerance ≤ 255 - negative values included - passes validation. -/
theorem tolerance_validation (img : Image) (color1 color2 : Color) (cc t : Int) :
    (t > 255 → run_single img color1 color2 cc t = Except.error ()) ∧
    (1 ≤ cc → t ≤ 255 → parse_parameters cc t = Except.ok (cc, t)) := by
  constructor
  · intro h
    have hp : parse_parameters cc t = Except.error () := by
      unfold parse_parameters
      by_cases hcc : 1 ≤ cc
      · rw [if_pos hcc, if_pos h]
      · rw [if_neg hcc]
    unfold run_single
    rw [hp]
  · intro h1 h2
    unfold parse_parameters
    rw [if_pos h1, if_neg (by omega)]

/-- C6 amended witness: tolerance 300 is refused before processing, while
tolerance -5 passes validation. -/
theorem tolerance_validation_witness :
    run_single testImg fromColor toColor 2 300 = Except.error () ∧
    parse_parameters 2 (-5) = Except.ok (2, -5) :=
  ⟨(tolerance_validation testImg fromColor toColor 2 300).1 (by decide),
   (tolerance_validation testImg fromColor toColor 2 (-5)).2 (by decide) (by decide)⟩

/-- C7: a worker count below 1 is refused before any worker is dispatched (the
run errors and no image is produced), and for every worker count ≥ 1 the
worker-count check passes: the parse outcome then depends on the tolerance
alone. -/
theorem core_count_validation (img : Image) (color1 color2 : Color) (cc t : Int) :
    (cc < 1 → run_single img color1 color2 cc t = Except.error ()) ∧
    (1 ≤ cc → parse_parameters cc t
      = if t > 255 then Except.error () else Except.ok (cc, t)) := by
  constructor
  · intro h
    have hp : parse_parameters cc t = Except.error () := by
      unfold parse_parameters
      rw [if_neg (by omega)]
    unfold run_single
    rw [hp]
  · intro h
    unfold parse_parameters
    rw [if_pos h]

/-- C7 witness: worker count 0 is refused; worker count 3 passes the check. -/
theorem core_count_validation_witness :
    run_single testImg fromColor toColor 0 70 = Except.error () ∧
    parse_parameters 3 70
      = if (70 : Int) > 255 then Except.error () else Except.ok (3, 70) :=
  ⟨(core_count_validation testImg fromColor toColor 0 70).1 (by decide),
   (core_count_validation testImg fromColor toColor 3 70).2 (by decide)⟩

lemma crop_self (img : Image) (lo : Nat) : crop img lo lo = [] := by
  unfold crop
  apply List.drop_of_length_le
  simp only [List.length_take]
  exact Nat.min_le_left _ _

lemma empty_region_paste (acc img : Image) (color1 color2 : Color) (tolerance : Int)
    (K i : Nat)
    (hb : region_bound img.length K (i + 1) = region_bound img.length K i) :
    paste acc (region_result img color1 color2 tolerance K i)
      (region_bound img.length K i) = acc := by
  have h1 : region_result img color1 color2 tolerance K i = [] := by
    unfold region_result
    rw [hb, crop_self]
    rfl
  rw [h1]
  unfold paste
  simp

lemma foldl_filter_of_skip (f : Image → Nat → Image) (pred : Nat → Bool)
    (hid : ∀ acc i, pred i = false → f acc i = acc) :
    ∀ (l : List Nat) (a : Image), l.foldl f a = (l.filter pred).foldl f a := by
  intro l
  induction l with
  | nil =>
    intro a
    rfl
  | cons hd tl ih =>
    intro a
    rw [List.foldl_cons]
    by_cases h : pred hd = true
    · rw [List.filter_cons_of_pos h, List.foldl_cons]
      exact ih (f a hd)
    · rw [List.filter_cons_of_neg (by simpa using h),
        hid a hd (Bool.eq_false_iff.mpr h)]
      exact ih a

/-- C8: with workerCount 8 on an image 4 columns wide, exactly 4 of the 8
regions are zero-width; pasting the processed buffer of a zero-width region
leaves the image unchanged, and the whole run equals the run over the
non-empty regions alone. -/
theorem empty_regions_harmless (img : Image) (color1 color2 : Color) (tolerance : Int)
    (h4 : img.length = 4) :
    ((List.range 8).filter
        (fun i => decide (region_bound 4 8 (i + 1) = region_bound 4 8 i))).length = 4 ∧
    (∀ (acc : Image) (i : Nat), region_bound 4 8 (i + 1) = region_bound 4 8 i →
      paste acc (region_result img color1 color2 tolerance 8 i)
        (region_bound 4 8 i) = acc) ∧
    change_img img color1 color2 tolerance 8
      = ((List.range 8).filter
          (fun i => decide (¬ region_bound 4 8 (i + 1) = region_bound 4 8 i))).foldl
          (fun acc i => paste acc (region_result img color1 color2 tolerance 8 i)
            (region_bound 4 8 i)) img := by
  refine ⟨by decide, ?_, ?_⟩
  · intro acc i hb
    have hb2 : region_bound img.length 8 (i + 1) = region_bound img.length 8 i := by
      rw [h4]
      exact hb
    have h := empty_region_paste acc img color1 color2 tolerance 8 i hb2
    rw [h4] at h
    exact h
  · unfold change_img
    rw [h4]
    apply foldl_filter_of_skip
    intro acc i hp
    have heq : region_bound 4 8 (i + 1) = region_bound 4 8 i := by
      simpa using hp
    have hb2 : region_bound img.length 8 (i + 1) = region_bound img.length 8 i := by
      rw [h4]
      exact heq
    have h := empty_region_paste acc img color1 color2 tolerance 8 i hb2
    rw [h4] at h
    exact h

/-- C8 witness: the run of the 4-wide scenario image with 8 workers equals the
run over the non-empty regions alone. -/
theorem empty_regions_harmless_witness :
    change_img testImg fromColor toColor 70 8
      = ((List.range 8).filter
          (fun i => decide (¬ region_bound 4 8 (i + 1) = region_bound 4 8 i))).foldl
          (fun acc i => paste acc (region_result testImg fromColor toColor 70 8 i)
            (region_bound 4 8 i)) testImg :=
  (empty_regions_harmless testImg fromColor toColor 70 (by decide)).2.2

lemma crop_dict_eval (img : Image) (color1 color2 : Color) (tolerance : Int) (K : Nat)
    (arrivals : List Nat) (j : Nat) (hj : j ∈ arrivals) :
    crop_dict img color1 color2 tolerance K arrivals j
      = some (region_result img color1 color2 tolerance K j) := by
  unfold crop_dict
  induction arrivals with
  | nil => cases hj
  | cons hd tl ih =>
    rw [List.map_cons]
    by_cases h : hd = j
    · subst h
      rw [List.find?_cons_of_pos _ (by simp)]
      rfl
    · rw [List.find?_cons_of_neg _ (by simpa using h)]
      rcases List.mem_cons.mp hj with h1 | h1
      · exact absurd h1.symm h
      · exact ih h1

/-- C9: whatever order the worker results arrive in (any permutation of the
region indices), the composited image equals the one from in-order arrival:
the collector keys results by region index, not completion order. -/
theorem arrival_order_irrelevant (img : Image) (color1 color2 : Color) (tolerance : Int)
    (K : Nat) (arrivals : List Nat) (hperm : arrivals.Perm (List.range K)) :
    change_img_arrivals img color1 color2 tolerance K arrivals
      = change_img img color1 color2 tolerance K := by
  unfold change_img_arrivals change_img
  apply List.foldl_ext
  intro acc i hi
  have hmem : i ∈ arrivals := hperm.mem_iff.mpr hi
  rw [crop_dict_eval img color1 color2 tolerance K arrivals i hmem]
  rfl

/-- C9 witness: on the scenario image with two workers, arrival order [1, 0]
produces the same output as arrival order [0, 1]. -/
theorem arrival_order_irrelevant_witness :
    change_img_arrivals testImg fromColor toColor 20 2 [1, 0]
      = change_img testImg fromColor toColor 20 2 :=
  arrival_order_irrelevant testImg fromColor toColor 20 2 [1, 0] (by decide)

/-- C10: with non-positive tolerance the matcher rejects every pixel - each
per-channel interval `[c - t, c + t)` is empty - so the whole pipeline with
tolerance 0 returns every image unchanged, even where a pixel equals the
`from` color exactly. -/
theorem tolerance_zero_identity :
    (∀ (p : Pixel) (c : Color) (t : Int), t ≤ 0 → check_pixel p c t = false) ∧
    (∀ (img : Image) (color1 color2 : Color) (K : Nat), 1 ≤ K →
      change_img img color1 color2 0 K = img) := by
  have hfalse : ∀ (p : Pixel) (c : Color) (t : Int), t ≤ 0 → check_pixel p c t = false := by
    intro p c t ht
    unfold check_pixel
    have h1 : ¬(c.r - t ≤ p.r ∧ p.r < c.r + t) := by omega
    rw [decide_eq_false h1]
    simp
  refine ⟨hfalse, ?_⟩
  intro img color1 color2 K hK
  rw [change_img_eq_change_color img color1 color2 0 K hK]
  unfold change_color
  have hstep : ∀ pixel : Pixel,
      (if check_pixel pixel color1 0 then change_pixel pixel color1 color2 else pixel)
        = pixel := by
    intro pixel
    simp [hfalse pixel color1 0 (le_refl 0)]
  have hfun : (fun pixel : Pixel =>
      if check_pixel pixel color1 0 then change_pixel pixel color1 color2 else pixel)
        = fun pixel => pixel := funext hstep
  rw [hfun]
  simp [List.map_id']

/-- C10 witness: a pixel equal to the target is rejected at tolerance 0, and
the scenario image is returned unchanged by the tolerance-0 run. -/
theorem tolerance_zero_identity_witness :
    check_pixel ⟨100, 100, 100, some 255⟩ fromColor 0 = false ∧
    change_img testImg fromColor toColor 0 2 = testImg :=
  ⟨tolerance_zero_identity.1 ⟨100, 100, 100, some 255⟩ fromColor 0 (by decide),
   tolerance_zero_identity.2 testImg fromColor toColor 2 (by decide)⟩
